import Mathlib

/-!
# Verification of the company-scraper pipeline

Shallow embedding of `src/scraper_annotated.py`:

* Python strings are embedded as `List Char` (the data is ASCII; the Python
  string methods `strip`, `lower`, `title` are modelled on ASCII characters,
  matching Lean's core ASCII `Char.toLower` / `Char.toUpper`).
* `normalize_phone`, `normalize_country` are direct translations of the
  Python functions of the same names.
* The HTML library (BeautifulSoup) is the external collaborator: a parsed
  document is modelled by the structure the parser queries — an optional
  table with an optional `tbody` holding rows of cell texts, plus an
  optional `a#next` anchor with an optional `href`.
* The pandas pipeline `clean_dataframe` is modelled record-wise; the
  `astype("Int64")` cast can raise, which is modelled with `Except`.
* The file system of `scrape_demo_site` is modelled as a finite
  association list from page locators to page files, where a page file is
  either readable (a parsed document) or existing-but-unreadable (its
  `read_text` raises, and nothing in the script catches that); a locator
  absent from the list is a missing file (`current.exists()` is false).
  `Site`/`crawlAux` is the sub-model in which every existing file is
  readable, `FsSite`/`crawlFs` the full model with the read-error path;
  `crawlFs_readable` proves the two agree on all-readable sites.
  `Path.resolve` on the flat demo site is the identity on locators, so
  `next_href` values are used as locators directly.
-/

/-- Python strings, embedded as lists of characters. -/
abbrev Str := List Char

/-- The whitespace characters recognised by Python's `str.strip()` (ASCII). -/
def isPySpace (c : Char) : Bool :=
  c == ' ' || c == '\t' || c == '\n' || c == '\r' || c == '\x0b' || c == '\x0c'

/-- Left part of Python `str.strip()`. -/
def lstrip (s : Str) : Str := s.dropWhile isPySpace

/-- Right part of Python `str.strip()`. -/
def rstrip (s : Str) : Str := (s.reverse.dropWhile isPySpace).reverse

/-- Python `str.strip()`: remove leading and trailing whitespace. -/
def pyStrip (s : Str) : Str := rstrip (lstrip s)

/-- Python `str.lower()` on ASCII text. -/
def pyLower (s : Str) : Str := s.map Char.toLower

/-- A character is "cased" for the purpose of Python `str.title()`
(ASCII letters). -/
def isCasedChar (c : Char) : Bool :=
  ('A' ≤ c && c ≤ 'Z') || ('a' ≤ c && c ≤ 'z')

/-- Worker for Python `str.title()`: the flag records whether the previous
character was cased; a cased character after a non-cased one is uppercased,
a cased character after a cased one is lowercased. -/
def titleAux : Bool → Str → Str
  | _, [] => []
  | prev, c :: cs =>
    if isCasedChar c then
      (if prev then c.toLower else c.toUpper) :: titleAux true cs
    else
      c :: titleAux false cs

/-- Python `str.title()` on ASCII text. -/
def pyTitle (s : Str) : Str := titleAux false s

/-- The "missing value" sentinels of `normalize_phone`
(`{"n/a", "na", "none"}` in the source). -/
def phoneSentinels : List Str := ["n/a".data, "na".data, "none".data]

/-- The guard `not raw or raw.strip().lower() in {"n/a", "na", "none"}` of
`normalize_phone`. -/
def isMissingPhone (raw : Str) : Bool :=
  raw == [] || phoneSentinels.contains (pyLower (pyStrip raw))

/-- The stripping step `re.sub(r"[^\d+]", "", raw)` of `normalize_phone`:
delete every character that is neither a digit nor a `+`. -/
def stripPhone (raw : Str) : Str :=
  raw.filter (fun c => c.isDigit || c == '+')

/-- Translation of `normalize_phone` from `src/scraper_annotated.py` (lines 66-99). -/
def normalize_phone (raw : Str) : Str :=
  if isMissingPhone raw then []
  else
    let digits := stripPhone raw
    if digits ≠ [] ∧ digits.head? ≠ some '+' then
      if digits.length = 11 ∧ digits.head? = some '1' then '+' :: digits
      else if digits.length = 10 then '+' :: '1' :: digits
      else digits
    else digits

/-- The variant → canonical-label dictionary of `normalize_country`. -/
def countryMap : List (Str × Str) :=
  [("usa".data, "United States".data),
   ("united states".data, "United States".data),
   ("canada".data, "Canada".data),
   ("uk".data, "United Kingdom".data),
   ("united kingdom".data, "United Kingdom".data),
   ("mexico".data, "Mexico".data)]

/-- Translation of `normalize_country` from `src/scraper_annotated.py` (lines 102-129). -/
def normalize_country (raw : Str) : Str :=
  if raw = [] then []
  else
    let s := pyStrip raw
    match List.lookup (pyLower s) countryMap with
    | some v => v
    | none => pyTitle s

/-- A raw table row, exactly as extracted from a page
(the six positional columns of `parse_company_table`). -/
structure RawRecord where
  companyID : Str
  companyName : Str
  category : Str
  email : Str
  phone : Str
  country : Str
  deriving DecidableEq, Repr

/-- The `table#company-table` element as queried by the parser: its
(optional) `tbody`, holding rows of already-text-extracted cell strings. -/
structure HtmlTable where
  tbody : Option (List (List Str))
  deriving DecidableEq

/-- A parsed HTML document, reduced to the two queries the parser makes:
`soup.find("table", id="company-table")` and `soup.find("a", id="next")`
(an anchor may be present without an `href` attribute, hence the nested
option). -/
structure Document where
  table : Option HtmlTable
  next_link : Option (Option Str)
  deriving DecidableEq

/-- The per-row extraction of `parse_company_table`: a row is kept only if
it has exactly 6 cells, which are read positionally. -/
def rowToRecord (cols : List Str) : Option RawRecord :=
  match cols with
  | [c0, c1, c2, c3, c4, c5] =>
    some { companyID := c0, companyName := c1, category := c2,
           email := c3, phone := c4, country := c5 }
  | _ => none

/-- Translation of `parse_company_table` from `src/scraper_annotated.py` (lines 135-190):
returns the extracted rows and the optional `href` of the `a#next` anchor.
A missing table or missing `tbody` short-circuits to `([], none)` before
the next-link lookup is reached. -/
def parse_company_table (doc : Document) : List RawRecord × Option Str :=
  match doc.table with
  | none => ([], none)
  | some table =>
    match table.tbody with
    | none => ([], none)
    | some trs =>
      let rows := trs.filterMap rowToRecord
      let next_href :=
        match doc.next_link with
        | some (some href) => some href
        | _ => none
      (rows, next_href)

/-- The all-readable sub-model of the demo site's file system: a finite
map from page locators to parsed documents. A locator absent from this
map is a missing file and nothing else — `current.exists()` is false; an
existing file whose `read_text` raises is a distinct code path and is
modelled separately (`FsSite`/`crawlFs` below), with `crawlFs_readable`
showing the two models agree when every existing file is readable. On
the flat demo site `(current.parent / next_href).resolve()` is
injectively determined by `next_href`, so hrefs serve directly as
locators. -/
abbrev Site := List (Str × Document)

/-- Locator lookup in the all-readable sub-model: `none` means precisely
that the file does not exist (`current.exists()` is false). -/
def siteLookup : Site → Str → Option Document
  | [], _ => none
  | (k, d) :: rest, loc => if k = loc then some d else siteLookup rest loc

/-- The locators of the existing pages of a site. -/
def siteKeys (site : Site) : List Str := site.map Prod.fst

theorem siteLookup_mem {site : Site} {loc : Str} {d : Document}
    (h : siteLookup site loc = some d) : loc ∈ siteKeys site := by
  induction site with
  | nil => simp [siteLookup] at h
  | cons hd tl ih =>
    obtain ⟨k, v⟩ := hd
    simp only [siteKeys, List.map_cons, List.mem_cons]
    by_cases hk : k = loc
    · exact Or.inl hk.symm
    · simp only [siteLookup, if_neg hk] at h
      exact Or.inr (ih h)

/-- The crawl's termination measure strictly decreases each time a fresh
existing locator is added to the visited set. -/
theorem visited_measure_lt {site : Site} {loc : Str} {seen : List Str}
    (hk : loc ∈ siteKeys site) (hseen : loc ∉ seen) :
    ((siteKeys site).toFinset \ (loc :: seen).toFinset).card <
      ((siteKeys site).toFinset \ seen.toFinset).card := by
  have hmem : loc ∈ (siteKeys site).toFinset \ seen.toFinset := by
    simp only [Finset.mem_sdiff, List.mem_toFinset]
    exact ⟨hk, hseen⟩
  calc ((siteKeys site).toFinset \ (loc :: seen).toFinset).card
      ≤ (((siteKeys site).toFinset \ seen.toFinset).erase loc).card := by
        apply Finset.card_le_card
        intro x hx
        simp only [List.toFinset_cons, Finset.mem_sdiff, Finset.mem_insert,
          List.mem_toFinset, not_or] at hx
        simp only [Finset.mem_erase, Finset.mem_sdiff, List.mem_toFinset]
        exact ⟨hx.2.1, hx.1, hx.2.2⟩
    _ < ((siteKeys site).toFinset \ seen.toFinset).card :=
        Finset.card_erase_lt_of_mem hmem

/-- The `while` loop of `scrape_demo_site` (lines 210–229): `cur` is the
`current` locator (`none` once no next link was returned), `seen` the
visited set. Each iteration stops on a missing document or an
already-visited locator, otherwise appends the page's rows and follows the
next link. Termination: the visited set grows inside the (finite) set of
existing locators. -/
def crawlAux (site : Site) (cur : Option Str) (seen : List Str) :
    List RawRecord :=
  match cur with
  | none => []
  | some loc =>
    match hdoc : siteLookup site loc with
    | none => []
    | some doc =>
      if hseen : loc ∈ seen then []
      else
        (parse_company_table doc).1 ++
          crawlAux site (parse_company_table doc).2 (loc :: seen)
termination_by ((siteKeys site).toFinset \ seen.toFinset).card
decreasing_by
  exact visited_measure_lt (siteLookup_mem hdoc) hseen

/-- The sequence of locators the crawl visits, in visit order (same
recursion as `crawlAux`). -/
def visitSeq (site : Site) (cur : Option Str) (seen : List Str) :
    List Str :=
  match cur with
  | none => []
  | some loc =>
    match hdoc : siteLookup site loc with
    | none => []
    | some doc =>
      if hseen : loc ∈ seen then []
      else loc :: visitSeq site (parse_company_table doc).2 (loc :: seen)
termination_by ((siteKeys site).toFinset \ seen.toFinset).card
decreasing_by
  exact visited_measure_lt (siteLookup_mem hdoc) hseen

/-- The rows one existing page contributes (a missing page contributes
nothing). -/
def pageRows (site : Site) (loc : Str) : List RawRecord :=
  match siteLookup site loc with
  | none => []
  | some doc => (parse_company_table doc).1

/-- Translation of `scrape_demo_site` (the raw-row accumulation of lines 210-226; the
final DataFrame conversion is the identity on the row list). -/
def crawl (site : Site) (entry : Str) : List RawRecord :=
  crawlAux site (some entry) []

/-- One existing file of the demo site in the full file-system model: it
is either readable (and parses to a `Document`) or unreadable, in which
case `current.read_text(encoding="utf-8")` at line 220 raises
(`OSError`/`UnicodeDecodeError`) with no handler anywhere in the
script. -/
inductive PageFile where
  | unreadable : PageFile
  | readable : Document → PageFile
  deriving DecidableEq

/-- The full file-system model: a finite map from page locators to page
files. A locator absent from the map is a missing file
(`current.exists()` is false); a present `PageFile.unreadable` is an
existing file whose read raises. -/
abbrev FsSite := List (Str × PageFile)

/-- Locator lookup in the full model (`current.exists()` plus, for an
existing file, whether it can be read). -/
def fsLookup : FsSite → Str → Option PageFile
  | [], _ => none
  | (k, f) :: rest, loc => if k = loc then some f else fsLookup rest loc

/-- The locators of the existing files of a site in the full model. -/
def fsKeys (site : FsSite) : List Str := site.map Prod.fst

theorem fsLookup_mem {site : FsSite} {loc : Str} {f : PageFile}
    (h : fsLookup site loc = some f) : loc ∈ fsKeys site := by
  induction site with
  | nil => simp [fsLookup] at h
  | cons hd tl ih =>
    obtain ⟨k, v⟩ := hd
    simp only [fsKeys, List.map_cons, List.mem_cons]
    by_cases hk : k = loc
    · exact Or.inl hk.symm
    · simp only [fsLookup, if_neg hk] at h
      exact Or.inr (ih h)

/-- Same termination measure argument as `visited_measure_lt`, for the
full model. -/
theorem fs_visited_measure_lt {site : FsSite} {loc : Str} {seen : List Str}
    (hk : loc ∈ fsKeys site) (hseen : loc ∉ seen) :
    ((fsKeys site).toFinset \ (loc :: seen).toFinset).card <
      ((fsKeys site).toFinset \ seen.toFinset).card := by
  have hmem : loc ∈ (fsKeys site).toFinset \ seen.toFinset := by
    simp only [Finset.mem_sdiff, List.mem_toFinset]
    exact ⟨hk, hseen⟩
  calc ((fsKeys site).toFinset \ (loc :: seen).toFinset).card
      ≤ (((fsKeys site).toFinset \ seen.toFinset).erase loc).card := by
        apply Finset.card_le_card
        intro x hx
        simp only [List.toFinset_cons, Finset.mem_sdiff, Finset.mem_insert,
          List.mem_toFinset, not_or] at hx
        simp only [Finset.mem_erase, Finset.mem_sdiff, List.mem_toFinset]
        exact ⟨hx.2.1, hx.1, hx.2.2⟩
    _ < ((fsKeys site).toFinset \ seen.toFinset).card :=
        Finset.card_erase_lt_of_mem hmem

/-- The `while` loop of `scrape_demo_site` over the full file-system
model. The loop condition checks `current.exists()` (a missing file stops
the loop normally), then the cycle guard, and only then reads the file:
an unreadable file makes `read_text` raise, which propagates uncaught —
modelled as `Except.error`, which also discards the rows accumulated so
far, exactly as the uncaught Python exception does. -/
def crawlFsAux (site : FsSite) (cur : Option Str) (seen : List Str) :
    Except Str (List RawRecord) :=
  match cur with
  | none => Except.ok []
  | some loc =>
    match hfile : fsLookup site loc with
    | none => Except.ok []
    | some file =>
      if hseen : loc ∈ seen then Except.ok []
      else
        match file with
        | PageFile.unreadable => Except.error "read_text raised".data
        | PageFile.readable doc =>
          Except.map (fun rest => (parse_company_table doc).1 ++ rest)
            (crawlFsAux site (parse_company_table doc).2 (loc :: seen))
termination_by ((fsKeys site).toFinset \ seen.toFinset).card
decreasing_by
  exact fs_visited_measure_lt (fsLookup_mem hfile) hseen

/-- Translation of `scrape_demo_site` over the full file-system model:
either the accumulated rows, or the uncaught read exception. -/
def crawlFs (site : FsSite) (entry : Str) : Except Str (List RawRecord) :=
  crawlFsAux site (some entry) []

/-- The embedding of an all-readable site into the full model. -/
def embedFs (site : Site) : FsSite :=
  site.map (fun p => (p.1, PageFile.readable p.2))

/-- A cleaned record: nullable integer id, nullable email/phone
(pandas `<NA>` is `none`). -/
structure CleanRecord where
  companyID : Option Int
  companyName : Str
  category : Str
  email : Option Str
  phone : Option Str
  country : Str
  deriving DecidableEq, Repr

/-- Numeric value of one decimal digit character. -/
def charToDigit (c : Char) : Nat := c.toNat - 48

/-- Value of a big-endian digit string (`int("…")` on bare digits). -/
def parseNat (s : Str) : Nat :=
  s.foldl (fun acc c => 10 * acc + charToDigit c) 0

/-- The number parser of `pd.to_numeric` on one cell, modelled for
decimal literals `digits[.digits]` (exponent notation and `inf`/`nan`
words are outside the model; the repository's data and the claims only
involve plain decimals). The value is returned exactly as a scaled
integer: `(num, scale)` denotes `num / 10 ^ scale`. -/
def parseUnsigned (s : Str) : Option (Nat × Nat) :=
  let intPart := s.takeWhile Char.isDigit
  let rest := s.dropWhile Char.isDigit
  match rest with
  | [] => if intPart = [] then none else some (parseNat intPart, 0)
  | '.' :: frac =>
    if frac.all Char.isDigit ∧ (intPart ≠ [] ∨ frac ≠ []) then
      some (parseNat intPart * 10 ^ frac.length + parseNat frac, frac.length)
    else none
  | _ => none

/-- Model of `pd.to_numeric(cell, errors="coerce")`: the parsed value (an optional
sign, then a decimal literal, surrounding whitespace ignored), or `none`
(NaN) when the cell does not parse as a number. -/
def to_numeric_coerce (s : Str) : Option (Int × Nat) :=
  let t := pyStrip s
  if t.head? = some '+' then
    (parseUnsigned t.tail).map (fun p => ((p.1 : Int), p.2))
  else if t.head? = some '-' then
    (parseUnsigned t.tail).map (fun p => (-(p.1 : Int), p.2))
  else
    (parseUnsigned t).map (fun p => ((p.1 : Int), p.2))

/-- Model of `.astype("Int64")` on one coerced value: NaN becomes `<NA>`, an
integral value is cast, and a non-integral value raises
(`TypeError: cannot safely cast non-equivalent float64 to int64`). -/
def astypeInt64 (v : Option (Int × Nat)) : Except Str (Option Int) :=
  match v with
  | none => Except.ok none
  | some (num, scale) =>
    if num % (10 : Int) ^ scale = 0 then Except.ok (some (num / (10 : Int) ^ scale))
    else Except.error "cannot safely cast non-equivalent float64 to int64".data

/-- The `CompanyID` column transform of `clean_dataframe` (line 254). -/
def coerce_company_id (s : Str) : Except Str (Option Int) :=
  astypeInt64 (to_numeric_coerce s)

/-- The `CompanyName`/`Category` column transform
(`.str.strip().str.title()`, lines 257–258). -/
def clean_text (s : Str) : Str := pyTitle (pyStrip s)

/-- The string part of the `Email` transform
(`.str.strip().str.lower()`, lines 261–265). -/
def clean_email_str (s : Str) : Str := pyLower (pyStrip s)

/-- The `Email` field after `.replace({"": pd.NA})`. -/
def emailField (s : Str) : Option Str :=
  let e := clean_email_str s
  if e = [] then none else some e

/-- The `Phone` field after `normalize_phone` and `.replace({"": pd.NA})`. -/
def phoneField (s : Str) : Option Str :=
  let p := normalize_phone s
  if p = [] then none else some p

/-- All field-level transforms of `clean_dataframe` applied to one record
(the `CompanyID` cast is the only one that can raise). -/
def transform_record (r : RawRecord) : Except Str CleanRecord :=
  match coerce_company_id r.companyID with
  | Except.error e => Except.error e
  | Except.ok cid =>
    Except.ok
      { companyID := cid
        companyName := clean_text r.companyName
        category := clean_text r.category
        email := emailField r.email
        phone := phoneField r.phone
        country := normalize_country r.country }

/-- The field-transform phase over the whole dataset (column-wise in
pandas; an exception anywhere aborts the whole call). -/
def transform_all : List RawRecord → Except Str (List CleanRecord)
  | [] => Except.ok []
  | r :: rs =>
    match transform_record r with
    | Except.error e => Except.error e
    | Except.ok c =>
      match transform_all rs with
      | Except.error e => Except.error e
      | Except.ok cs => Except.ok (c :: cs)

/-- The dedup key: the `subset=["CompanyID", "Email"]` of
`drop_duplicates` (pandas treats `<NA>` as equal to `<NA>` here). -/
def recKey (c : CleanRecord) : Option Int × Option Str :=
  (c.companyID, c.email)

/-- Worker for `drop_duplicates(..., keep="first")`: keep a record iff its
key was not seen before. -/
def dedupAux (seen : List (Option Int × Option Str)) :
    List CleanRecord → List CleanRecord
  | [] => []
  | r :: rs =>
    if recKey r ∈ seen then dedupAux seen rs
    else r :: dedupAux (recKey r :: seen) rs

/-- Translation of `drop_duplicates` on `(CompanyID, Email)` with `keep="first"`
(line 281). -/
def dedup_records (l : List CleanRecord) : List CleanRecord := dedupAux [] l

/-- The number of records whose key pair duplicates an earlier record's
key pair (the `K` of the dedup invariant). -/
def countDupAux (seen : List (Option Int × Option Str)) :
    List CleanRecord → Nat
  | [] => 0
  | r :: rs =>
    if recKey r ∈ seen then countDupAux seen rs + 1
    else countDupAux (recKey r :: seen) rs

/-- The number of records of `l` that duplicate an earlier record's
`(CompanyID, Email)` pair. -/
def countDupPairs (l : List CleanRecord) : Nat := countDupAux [] l

/-- Translation of `clean_dataframe` from `src/scraper_annotated.py` (lines 235-283):
field transforms, then deduplication. -/
def clean_dataframe (rs : List RawRecord) : Except Str (List CleanRecord) :=
  match transform_all rs with
  | Except.error e => Except.error e
  | Except.ok ts => Except.ok (dedup_records ts)

instance {ε α : Type} [DecidableEq ε] [DecidableEq α] :
    DecidableEq (Except ε α) := fun a b =>
  match a, b with
  | Except.ok x, Except.ok y =>
    if h : x = y then isTrue (by rw [h])
    else isFalse (fun hc => h (Except.ok.inj hc))
  | Except.ok _, Except.error _ => isFalse (fun hc => Except.noConfusion hc)
  | Except.error _, Except.ok _ => isFalse (fun hc => Except.noConfusion hc)
  | Except.error x, Except.error y =>
    if h : x = y then isTrue (by rw [h])
    else isFalse (fun hc => h (Except.error.inj hc))

/-- Little-endian digit characters of `n`; the first argument is
structural-recursion fuel (any fuel ≥ n gives the digits of `n`). -/
def natToStrAux : Nat → Nat → Str
  | 0, _ => []
  | _ + 1, 0 => []
  | fuel + 1, n + 1 =>
    Char.ofNat (48 + (n + 1) % 10) :: natToStrAux fuel ((n + 1) / 10)

/-- Decimal rendering of a natural number (for re-feeding cleaned integer
ids as raw strings). -/
def natToStr (n : Nat) : Str :=
  if n = 0 then ['0'] else (natToStrAux n n).reverse

/-- Decimal rendering of an integer. -/
def intToStr (n : Int) : Str :=
  if n < 0 then '-' :: natToStr n.natAbs else natToStr n.natAbs

/-!
## Character-level facts (ASCII)

Everything is reduced to `Char.toNat` arithmetic.
-/

theorem char_eq_of_toNat {a b : Char} (h : a.toNat = b.toNat) : a = b :=
  Char.ext (UInt32.ext h)

theorem char_toNat_ofNat {n : Nat} (h : n < 55296) : (Char.ofNat n).toNat = n := by
  have hv : n.isValidChar := Or.inl h
  simp [Char.ofNat, hv, Char.ofNatAux, Char.toNat, UInt32.toNat]

theorem char_le_iff {a b : Char} : (a ≤ b) ↔ a.toNat ≤ b.toNat := by
  simp [Char.le_def, UInt32.le_def, BitVec.le_def, Char.toNat, UInt32.toNat]

theorem char_eq_iff {a b : Char} : a = b ↔ a.toNat = b.toNat :=
  ⟨fun h => h ▸ rfl, char_eq_of_toNat⟩

theorem isDigit_iff {c : Char} :
    c.isDigit = true ↔ 48 ≤ c.toNat ∧ c.toNat ≤ 57 := by
  simp only [Char.isDigit, Bool.and_eq_true, decide_eq_true_eq, ge_iff_le,
    UInt32.le_def, BitVec.le_def, Char.toNat, UInt32.toNat,
    show ((48 : UInt32).toBitVec.toNat) = 48 by decide,
    show ((57 : UInt32).toBitVec.toNat) = 57 by decide]

theorem isCased_iff {c : Char} :
    isCasedChar c = true ↔
      (65 ≤ c.toNat ∧ c.toNat ≤ 90) ∨ (97 ≤ c.toNat ∧ c.toNat ≤ 122) := by
  rw [show (65 : Nat) = ('A' : Char).toNat by decide,
    show (90 : Nat) = ('Z' : Char).toNat by decide,
    show (97 : Nat) = ('a' : Char).toNat by decide,
    show (122 : Nat) = ('z' : Char).toNat by decide]
  simp [isCasedChar, char_le_iff]

theorem isPySpace_iff {c : Char} :
    isPySpace c = true ↔
      c.toNat = 32 ∨ c.toNat = 9 ∨ c.toNat = 10 ∨ c.toNat = 13 ∨
        c.toNat = 11 ∨ c.toNat = 12 := by
  rw [show (32 : Nat) = (' ' : Char).toNat by decide,
    show (9 : Nat) = ('\t' : Char).toNat by decide,
    show (10 : Nat) = ('\n' : Char).toNat by decide,
    show (13 : Nat) = ('\r' : Char).toNat by decide,
    show (11 : Nat) = ('\x0b' : Char).toNat by decide,
    show (12 : Nat) = ('\x0c' : Char).toNat by decide]
  simp [isPySpace, char_eq_iff, or_assoc]

theorem toNat_toLower (c : Char) :
    c.toLower.toNat =
      if 65 ≤ c.toNat ∧ c.toNat ≤ 90 then c.toNat + 32 else c.toNat := by
  by_cases h : 65 ≤ c.toNat ∧ c.toNat ≤ 90
  · have hlt : c.toNat + 32 < 55296 := by omega
    show (if c.toNat ≥ 65 ∧ c.toNat ≤ 90 then Char.ofNat (c.toNat + 32)
      else c).toNat = _
    rw [if_pos ⟨h.1, h.2⟩, if_pos h]
    exact char_toNat_ofNat hlt
  · show (if c.toNat ≥ 65 ∧ c.toNat ≤ 90 then Char.ofNat (c.toNat + 32)
      else c).toNat = _
    rw [if_neg h, if_neg h]

theorem toNat_toUpper (c : Char) :
    c.toUpper.toNat =
      if 97 ≤ c.toNat ∧ c.toNat ≤ 122 then c.toNat - 32 else c.toNat := by
  by_cases h : 97 ≤ c.toNat ∧ c.toNat ≤ 122
  · have hlt : c.toNat - 32 < 55296 := by omega
    show (if c.toNat ≥ 97 ∧ c.toNat ≤ 122 then Char.ofNat (c.toNat - 32)
      else c).toNat = _
    rw [if_pos ⟨h.1, h.2⟩, if_pos h]
    exact char_toNat_ofNat hlt
  · show (if c.toNat ≥ 97 ∧ c.toNat ≤ 122 then Char.ofNat (c.toNat - 32)
      else c).toNat = _
    rw [if_neg h, if_neg h]

theorem toLower_toLower (c : Char) : c.toLower.toLower = c.toLower := by
  apply char_eq_of_toNat
  have h1 := toNat_toLower c
  have h2 := toNat_toLower c.toLower
  split at h1 <;> split at h2 <;> omega

theorem toUpper_toUpper (c : Char) : c.toUpper.toUpper = c.toUpper := by
  apply char_eq_of_toNat
  have h1 := toNat_toUpper c
  have h2 := toNat_toUpper c.toUpper
  split at h1 <;> split at h2 <;> omega

theorem toLower_toUpper (c : Char) : c.toUpper.toLower = c.toLower := by
  apply char_eq_of_toNat
  have h1 := toNat_toUpper c
  have h2 := toNat_toLower c.toUpper
  have h3 := toNat_toLower c
  split at h1 <;> split at h2 <;> split at h3 <;> omega

theorem isCased_toLower (c : Char) : isCasedChar c.toLower = isCasedChar c := by
  have h1 := toNat_toLower c
  rw [Bool.eq_iff_iff, isCased_iff, isCased_iff]
  split at h1 <;> omega

theorem isCased_toUpper (c : Char) : isCasedChar c.toUpper = isCasedChar c := by
  have h1 := toNat_toUpper c
  rw [Bool.eq_iff_iff, isCased_iff, isCased_iff]
  split at h1 <;> omega

theorem isPySpace_toLower (c : Char) : isPySpace c.toLower = isPySpace c := by
  have h1 := toNat_toLower c
  rw [Bool.eq_iff_iff, isPySpace_iff, isPySpace_iff]
  split at h1 <;> omega

theorem isPySpace_toUpper (c : Char) : isPySpace c.toUpper = isPySpace c := by
  have h1 := toNat_toUpper c
  rw [Bool.eq_iff_iff, isPySpace_iff, isPySpace_iff]
  split at h1 <;> omega

theorem toLower_eq_self {c : Char} (h : ¬(65 ≤ c.toNat ∧ c.toNat ≤ 90)) :
    c.toLower = c := by
  apply char_eq_of_toNat
  have h1 := toNat_toLower c
  split at h1 <;> omega

theorem isDigit_toLower_self {c : Char} (h : c.isDigit = true) :
    c.toLower = c := by
  refine toLower_eq_self ?_
  have := isDigit_iff.mp h
  omega

/-! ## dropWhile / strip machinery -/

theorem dropWhile_head_false {p : Char → Bool} {l : Str}
    (h : ∀ c, l.head? = some c → p c = false) : l.dropWhile p = l := by
  cases l with
  | nil => rfl
  | cons c cs =>
    have hc := h c rfl
    simp [List.dropWhile, hc]

theorem head?_dropWhile {p : Char → Bool} {l : Str} {c : Char}
    (h : (l.dropWhile p).head? = some c) : p c = false := by
  induction l with
  | nil => simp [List.dropWhile] at h
  | cons d ds ih =>
    by_cases hd : p d
    · exact ih (by simpa [List.dropWhile, hd] using h)
    · simp only [List.dropWhile, hd] at h
      simp at h
      subst h
      simpa using hd

theorem dropWhile_suffix' (p : Char → Bool) (l : Str) : l.dropWhile p <:+ l := by
  induction l with
  | nil => simp
  | cons c cs ih =>
    by_cases hc : p c
    · simp only [List.dropWhile, hc]
      exact ih.trans (List.suffix_cons c cs)
    · simp [List.dropWhile, hc]

theorem rstrip_front (l : Str) : rstrip l <+: l := by
  have h := List.reverse_prefix.mpr (dropWhile_suffix' isPySpace l.reverse)
  rw [List.reverse_reverse] at h
  exact h

theorem head?_of_front {u v : Str} {c : Char} (h : u <+: v)
    (hc : u.head? = some c) : v.head? = some c := by
  obtain ⟨t, rfl⟩ := h
  cases u with
  | nil => simp at hc
  | cons a as => simpa using hc

theorem pyStrip_head? {l : Str} {c : Char}
    (h : (pyStrip l).head? = some c) : isPySpace c = false := by
  have h2 : (lstrip l).head? = some c :=
    head?_of_front (rstrip_front (lstrip l)) h
  exact head?_dropWhile h2

theorem pyStrip_getLast? {l : Str} {c : Char}
    (h : (pyStrip l).getLast? = some c) : isPySpace c = false := by
  have h2 : (pyStrip l).getLast? =
      ((lstrip l).reverse.dropWhile isPySpace).head? := by
    simp [pyStrip, rstrip, List.getLast?_reverse]
  rw [h2] at h
  exact head?_dropWhile h

theorem lstrip_eq_self {l : Str}
    (h : ∀ c, l.head? = some c → isPySpace c = false) : lstrip l = l :=
  dropWhile_head_false h

theorem rstrip_eq_self {l : Str}
    (h : ∀ c, l.getLast? = some c → isPySpace c = false) : rstrip l = l := by
  have : l.reverse.dropWhile isPySpace = l.reverse := by
    apply dropWhile_head_false
    intro c hc
    exact h c (by simpa [List.head?_reverse] using hc)
  simp [rstrip, this]

theorem pyStrip_eq_self {l : Str}
    (hh : ∀ c, l.head? = some c → isPySpace c = false)
    (hl : ∀ c, l.getLast? = some c → isPySpace c = false) : pyStrip l = l := by
  rw [pyStrip, lstrip_eq_self hh, rstrip_eq_self hl]

theorem pyStrip_idem (l : Str) : pyStrip (pyStrip l) = pyStrip l :=
  pyStrip_eq_self (fun _ h => pyStrip_head? h) (fun _ h => pyStrip_getLast? h)

theorem pyStrip_eq_self_of_all {l : Str}
    (h : ∀ c ∈ l, isPySpace c = false) : pyStrip l = l := by
  refine pyStrip_eq_self (fun c hc => ?_) (fun c hc => ?_)
  · exact h c (by cases l with | nil => simp at hc | cons a as =>
      simp at hc; simp [hc])
  · exact h c (List.mem_of_mem_getLast? (by simp [hc]))

/-! ## map commutation with strip -/

theorem dropWhile_map (f : Char → Char) (p : Char → Bool) (l : Str) :
    (l.map f).dropWhile p = (l.dropWhile (fun c => p (f c))).map f := by
  induction l with
  | nil => rfl
  | cons c cs ih =>
    by_cases hc : p (f c)
    · simp [List.dropWhile, hc, ih]
    · simp [List.dropWhile, hc]

theorem pyStrip_map {f : Char → Char}
    (hf : ∀ c, isPySpace (f c) = isPySpace c) (l : Str) :
    pyStrip (l.map f) = (pyStrip l).map f := by
  have hfx : (fun c => isPySpace (f c)) = isPySpace := funext fun c => hf c
  have h1 : ∀ m : Str, lstrip (m.map f) = (lstrip m).map f := by
    intro m
    rw [lstrip, lstrip, dropWhile_map, hfx]
  have h2 : ∀ m : Str, rstrip (m.map f) = (rstrip m).map f := by
    intro m
    rw [rstrip, rstrip, ← List.map_reverse, dropWhile_map, hfx,
      List.map_reverse]
  rw [pyStrip, pyStrip, h1, h2]

theorem pyLower_pyStrip (l : Str) :
    pyLower (pyStrip l) = pyStrip (pyLower l) :=
  (pyStrip_map isPySpace_toLower l).symm

/-! ## lower / title lemmas -/

theorem pyLower_idem (l : Str) : pyLower (pyLower l) = pyLower l := by
  simp only [pyLower, List.map_map]
  apply List.map_congr_left
  intro c _
  exact toLower_toLower c

theorem titleAux_space_profile (l : Str) :
    ∀ prev, (titleAux prev l).map isPySpace = l.map isPySpace := by
  induction l with
  | nil => intro prev; rfl
  | cons c cs ih =>
    intro prev
    by_cases hc : isCasedChar c = true
    · cases prev with
      | false =>
        simp only [titleAux, hc, if_true, Bool.false_eq_true, if_false,
          List.map_cons, ih true, isPySpace_toUpper]
      | true =>
        simp only [titleAux, hc, if_true, List.map_cons, ih true,
          isPySpace_toLower]
    · simp [titleAux, hc, ih false]

theorem titleAux_idem (l : Str) :
    ∀ prev, titleAux prev (titleAux prev l) = titleAux prev l := by
  induction l with
  | nil => intro prev; rfl
  | cons c cs ih =>
    intro prev
    by_cases hc : isCasedChar c = true
    · cases prev with
      | false =>
        have h1 : titleAux false (c :: cs) = c.toUpper :: titleAux true cs := by
          simp [titleAux, hc]
        rw [h1]
        have h2 : isCasedChar c.toUpper = true := by
          rw [isCased_toUpper]; exact hc
        have h3 : titleAux false (c.toUpper :: titleAux true cs) =
            c.toUpper.toUpper :: titleAux true (titleAux true cs) := by
          simp [titleAux, h2]
        rw [h3, toUpper_toUpper, ih true]
      | true =>
        have h1 : titleAux true (c :: cs) = c.toLower :: titleAux true cs := by
          simp [titleAux, hc]
        rw [h1]
        have h2 : isCasedChar c.toLower = true := by
          rw [isCased_toLower]; exact hc
        have h3 : titleAux true (c.toLower :: titleAux true cs) =
            c.toLower.toLower :: titleAux true (titleAux true cs) := by
          simp [titleAux, h2]
        rw [h3, toLower_toLower, ih true]
    · have h1 : ∀ (prev' : Bool) (xs : Str),
          titleAux prev' (c :: xs) = c :: titleAux false xs := by
        intro prev' xs; simp [titleAux, hc]
      rw [h1, h1, ih false]

theorem pyLower_titleAux (l : Str) :
    ∀ prev, pyLower (titleAux prev l) = pyLower l := by
  induction l with
  | nil => intro prev; rfl
  | cons c cs ih =>
    intro prev
    by_cases hc : isCasedChar c = true
    · cases prev with
      | false =>
        have h1 : titleAux false (c :: cs) = c.toUpper :: titleAux true cs := by
          simp [titleAux, hc]
        simp only [h1, pyLower, List.map_cons, toLower_toUpper]
        have := ih true
        simp only [pyLower] at this
        rw [this]
      | true =>
        have h1 : titleAux true (c :: cs) = c.toLower :: titleAux true cs := by
          simp [titleAux, hc]
        simp only [h1, pyLower, List.map_cons, toLower_toLower]
        have := ih true
        simp only [pyLower] at this
        rw [this]
    · have h1 : titleAux prev (c :: cs) = c :: titleAux false cs := by
        simp [titleAux, hc]
      simp only [h1, pyLower, List.map_cons]
      have := ih false
      simp only [pyLower] at this
      rw [this]

theorem head?_space_of_profile {a b : Str}
    (hp : a.map isPySpace = b.map isPySpace)
    (h : ∀ c, b.head? = some c → isPySpace c = false) :
    ∀ c, a.head? = some c → isPySpace c = false := by
  intro c hc
  have h1 : (a.map isPySpace).head? = some (isPySpace c) := by
    rw [List.head?_map, hc]; rfl
  rw [hp, List.head?_map] at h1
  cases hb : b.head? with
  | none => rw [hb] at h1; simp at h1
  | some d =>
    rw [hb] at h1
    simp at h1
    rw [← h1]
    exact h d hb

theorem getLast?_space_of_profile {a b : Str}
    (hp : a.map isPySpace = b.map isPySpace)
    (h : ∀ c, b.getLast? = some c → isPySpace c = false) :
    ∀ c, a.getLast? = some c → isPySpace c = false := by
  intro c hc
  have h1 : (a.map isPySpace).getLast? = some (isPySpace c) := by
    rw [List.getLast?_map, hc]; rfl
  rw [hp, List.getLast?_map] at h1
  cases hb : b.getLast? with
  | none => rw [hb] at h1; simp at h1
  | some d =>
    rw [hb] at h1
    simp at h1
    rw [← h1]
    exact h d hb

theorem pyStrip_pyTitle_pyStrip (s : Str) :
    pyStrip (pyTitle (pyStrip s)) = pyTitle (pyStrip s) := by
  apply pyStrip_eq_self
  · exact head?_space_of_profile (titleAux_space_profile (pyStrip s) false)
      (fun c hc => pyStrip_head? hc)
  · exact getLast?_space_of_profile (titleAux_space_profile (pyStrip s) false)
      (fun c hc => pyStrip_getLast? hc)

theorem clean_text_idem (s : Str) : clean_text (clean_text s) = clean_text s := by
  have h1 : pyStrip (clean_text s) = clean_text s := pyStrip_pyTitle_pyStrip s
  show pyTitle (pyStrip (clean_text s)) = clean_text s
  rw [h1]
  exact titleAux_idem (pyStrip s) false

theorem clean_email_str_idem (s : Str) :
    clean_email_str (clean_email_str s) = clean_email_str s := by
  rw [clean_email_str, clean_email_str, pyLower_pyStrip, pyLower_idem,
    ← pyLower_pyStrip, pyStrip_idem]

/-! ## country canonicalization lemmas -/

theorem countryMap_lookup_canonical {k v : Str}
    (h : List.lookup k countryMap = some v) :
    v = "United States".data ∨ v = "Canada".data ∨
      v = "United Kingdom".data ∨ v = "Mexico".data := by
  simp only [countryMap, List.lookup] at h
  repeat' split at h
  all_goals simp_all

theorem normalize_country_of_lookup {raw v : Str} (hraw : raw ≠ [])
    (h : List.lookup (pyLower (pyStrip raw)) countryMap = some v) :
    normalize_country raw = v := by
  simp [normalize_country, hraw, h]

theorem normalize_country_fallback {raw : Str} (hraw : raw ≠ [])
    (h : List.lookup (pyLower (pyStrip raw)) countryMap = none) :
    normalize_country raw = pyTitle (pyStrip raw) := by
  simp [normalize_country, hraw, h]

theorem normalize_country_idem (raw : Str) :
    normalize_country (normalize_country raw) = normalize_country raw := by
  by_cases hraw : raw = []
  · subst hraw; decide
  · cases hlk : List.lookup (pyLower (pyStrip raw)) countryMap with
    | some v =>
      rw [normalize_country_of_lookup hraw hlk]
      rcases countryMap_lookup_canonical hlk with h | h | h | h <;>
        subst h <;> decide
    | none =>
      rw [normalize_country_fallback hraw hlk]
      by_cases ht : pyTitle (pyStrip raw) = []
      · rw [ht]; decide
      · have hs : pyStrip (pyTitle (pyStrip raw)) = pyTitle (pyStrip raw) :=
          pyStrip_pyTitle_pyStrip raw
        have hlow : pyLower (pyTitle (pyStrip raw)) = pyLower (pyStrip raw) :=
          pyLower_titleAux (pyStrip raw) false
        have hlk2 : List.lookup (pyLower (pyStrip (pyTitle (pyStrip raw))))
            countryMap = none := by
          rw [hs, hlow]; exact hlk
        rw [normalize_country_fallback ht hlk2, hs]
        exact titleAux_idem (pyStrip raw) false

/-! ## phone lemmas -/

theorem phone_alpha_not_space {c : Char}
    (h : (c.isDigit || c == '+') = true) : isPySpace c = false := by
  rcases Bool.or_eq_true _ _ |>.mp h with hd | hp
  · have := isDigit_iff.mp hd
    rw [Bool.eq_false_iff]
    intro hs
    have := isPySpace_iff.mp hs
    omega
  · have : c = '+' := by simpa using hp
    subst this
    decide

theorem phone_alpha_lower {c : Char}
    (h : (c.isDigit || c == '+') = true) : c.toLower = c := by
  rcases Bool.or_eq_true _ _ |>.mp h with hd | hp
  · exact isDigit_toLower_self hd
  · have : c = '+' := by simpa using hp
    subst this
    decide

theorem pyLower_eq_self {o : Str} (h : ∀ c ∈ o, c.toLower = c) :
    pyLower o = o := by
  induction o with
  | nil => rfl
  | cons c cs ih =>
    simp only [pyLower, List.map_cons]
    rw [h c (List.mem_cons_self c cs)]
    have := ih (fun d hd => h d (List.mem_cons_of_mem c hd))
    simp only [pyLower] at this
    rw [this]

theorem stripPhone_all (raw : Str) :
    ∀ c ∈ stripPhone raw, (c.isDigit || c == '+') = true := by
  intro c hc
  rw [stripPhone] at hc
  exact (List.mem_filter.mp hc).2

theorem stripPhone_eq_self {o : Str}
    (h : ∀ c ∈ o, (c.isDigit || c == '+') = true) : stripPhone o = o :=
  List.filter_eq_self.mpr h

theorem isMissingPhone_phoneAlpha {o : Str}
    (h : ∀ c ∈ o, (c.isDigit || c == '+') = true) :
    isMissingPhone o = (o == []) := by
  have h1 : o ≠ "n/a".data := by
    intro he
    have := h 'n' (by rw [he]; decide)
    exact absurd this (by decide)
  have h2 : o ≠ "na".data := by
    intro he
    have := h 'n' (by rw [he]; decide)
    exact absurd this (by decide)
  have h3 : o ≠ "none".data := by
    intro he
    have := h 'n' (by rw [he]; decide)
    exact absurd this (by decide)
  have hs : pyStrip o = o :=
    pyStrip_eq_self_of_all (fun c hc => phone_alpha_not_space (h c hc))
  have hl : pyLower o = o := pyLower_eq_self (fun c hc => phone_alpha_lower (h c hc))
  rw [isMissingPhone, hs, hl]
  have hcont : phoneSentinels.contains o = false := by
    simp [phoneSentinels, List.contains, h1, h2, h3]
  rw [hcont, Bool.or_false]

/-- Evaluation of `normalize_phone` on a string that is already pure
digits-and-plus (so the sentinel check and the stripping are no-ops). -/
theorem normalize_phone_phoneAlpha {o : Str}
    (h : ∀ c ∈ o, (c.isDigit || c == '+') = true) :
    normalize_phone o =
      if o ≠ [] ∧ o.head? ≠ some '+' then
        if o.length = 11 ∧ o.head? = some '1' then '+' :: o
        else if o.length = 10 then '+' :: '1' :: o
        else o
      else o := by
  by_cases hnil : o = []
  · subst hnil; decide
  · have hm : isMissingPhone o = false := by
      rw [isMissingPhone_phoneAlpha h]
      simp [hnil]
    simp only [normalize_phone, hm, Bool.false_eq_true, if_false,
      stripPhone_eq_self h]

theorem normalize_phone_idem (raw : Str) :
    normalize_phone (normalize_phone raw) = normalize_phone raw := by
  by_cases hm : isMissingPhone raw = true
  · have h0 : normalize_phone raw = [] := by simp [normalize_phone, hm]
    rw [h0]
    decide
  · have hm' : isMissingPhone raw = false := by simpa using hm
    have hall := stripPhone_all raw
    have h1 : normalize_phone raw =
        if stripPhone raw ≠ [] ∧ (stripPhone raw).head? ≠ some '+' then
          if (stripPhone raw).length = 11 ∧ (stripPhone raw).head? = some '1'
            then '+' :: stripPhone raw
          else if (stripPhone raw).length = 10 then '+' :: '1' :: stripPhone raw
          else stripPhone raw
        else stripPhone raw := by
      simp only [normalize_phone, hm', Bool.false_eq_true, if_false]
    by_cases hg : stripPhone raw ≠ [] ∧ (stripPhone raw).head? ≠ some '+'
    · by_cases h11 : (stripPhone raw).length = 11 ∧
          (stripPhone raw).head? = some '1'
      · have ho : normalize_phone raw = '+' :: stripPhone raw := by
          rw [h1, if_pos hg, if_pos h11]
        rw [ho]
        have hallo : ∀ c ∈ '+' :: stripPhone raw,
            (c.isDigit || c == '+') = true := by
          intro c hc
          rcases List.mem_cons.mp hc with hc | hc
          · subst hc; decide
          · exact hall c hc
        rw [normalize_phone_phoneAlpha hallo]
        rw [if_neg (by simp)]
      · by_cases h10 : (stripPhone raw).length = 10
        · have ho : normalize_phone raw = '+' :: '1' :: stripPhone raw := by
            rw [h1, if_pos hg, if_neg h11, if_pos h10]
          rw [ho]
          have hallo : ∀ c ∈ '+' :: '1' :: stripPhone raw,
              (c.isDigit || c == '+') = true := by
            intro c hc
            rcases List.mem_cons.mp hc with hc | hc
            · subst hc; decide
            · rcases List.mem_cons.mp hc with hc | hc
              · subst hc; decide
              · exact hall c hc
          rw [normalize_phone_phoneAlpha hallo]
          rw [if_neg (by simp)]
        · have ho : normalize_phone raw = stripPhone raw := by
            rw [h1, if_pos hg, if_neg h11, if_neg h10]
          rw [ho, normalize_phone_phoneAlpha hall, if_pos hg, if_neg h11,
            if_neg h10]
    · have ho : normalize_phone raw = stripPhone raw := by
        rw [h1, if_neg hg]
      rw [ho, normalize_phone_phoneAlpha hall, if_neg hg]

/-! ## decimal rendering round-trip -/

theorem parseNat_append_digit (A : Str) (c : Char) :
    parseNat (A ++ [c]) = 10 * parseNat A + charToDigit c := by
  simp [parseNat, List.foldl_append]

theorem natToStrAux_digits :
    ∀ fuel n, ∀ c ∈ natToStrAux fuel n, c.isDigit = true := by
  intro fuel
  induction fuel with
  | zero => intro n c hc; simp [natToStrAux] at hc
  | succ fuel ih =>
    intro n c hc
    cases n with
    | zero => simp [natToStrAux] at hc
    | succ m =>
      simp only [natToStrAux, List.mem_cons] at hc
      rcases hc with hc | hc
      · subst hc
        have hr : (m + 1) % 10 < 10 := Nat.mod_lt _ (by norm_num)
        have hlt : 48 + (m + 1) % 10 < 55296 := by omega
        rw [isDigit_iff, char_toNat_ofNat hlt]
        omega
      · exact ih _ c hc

theorem parseNat_natToStrAux :
    ∀ fuel n, n ≤ fuel → parseNat (natToStrAux fuel n).reverse = n := by
  intro fuel
  induction fuel with
  | zero =>
    intro n hn
    have : n = 0 := by omega
    subst this
    rfl
  | succ fuel ih =>
    intro n hn
    cases n with
    | zero => rfl
    | succ m =>
      show parseNat ((Char.ofNat (48 + (m + 1) % 10) ::
        natToStrAux fuel ((m + 1) / 10)).reverse) = m + 1
      rw [List.reverse_cons, parseNat_append_digit]
      have hle : (m + 1) / 10 ≤ fuel := by
        have := Nat.div_lt_self (Nat.succ_pos m) (by norm_num : 1 < 10)
        omega
      rw [ih _ hle]
      have hr : (m + 1) % 10 < 10 := Nat.mod_lt _ (by norm_num)
      have hlt : 48 + (m + 1) % 10 < 55296 := by omega
      have hd : charToDigit (Char.ofNat (48 + (m + 1) % 10)) = (m + 1) % 10 := by
        rw [charToDigit, char_toNat_ofNat hlt]
        omega
      rw [hd]
      have := Nat.div_add_mod (m + 1) 10
      omega

theorem natToStr_digits (n : Nat) : ∀ c ∈ natToStr n, c.isDigit = true := by
  intro c hc
  rw [natToStr] at hc
  by_cases h0 : n = 0
  · simp [h0] at hc
    subst hc
    decide
  · rw [if_neg h0] at hc
    exact natToStrAux_digits n n c (List.mem_reverse.mp hc)

theorem parseNat_natToStr (n : Nat) : parseNat (natToStr n) = n := by
  rw [natToStr]
  by_cases h0 : n = 0
  · subst h0; rfl
  · rw [if_neg h0]
    exact parseNat_natToStrAux n n le_rfl

theorem natToStr_ne_nil (n : Nat) : natToStr n ≠ [] := by
  rw [natToStr]
  by_cases h0 : n = 0
  · simp [h0]
  · rw [if_neg h0]
    cases n with
    | zero => exact absurd rfl h0
    | succ m => simp [natToStrAux]

theorem takeWhile_all {p : Char → Bool} {l : Str}
    (h : ∀ c ∈ l, p c = true) : l.takeWhile p = l := by
  induction l with
  | nil => rfl
  | cons c cs ih =>
    rw [List.takeWhile_cons, h c (List.mem_cons_self c cs)]
    rw [ih (fun d hd => h d (List.mem_cons_of_mem c hd))]
    simp

theorem dropWhile_all {p : Char → Bool} {l : Str}
    (h : ∀ c ∈ l, p c = true) : l.dropWhile p = [] := by
  induction l with
  | nil => rfl
  | cons c cs ih =>
    rw [List.dropWhile_cons, h c (List.mem_cons_self c cs)]
    simp only [if_true]
    exact ih (fun d hd => h d (List.mem_cons_of_mem c hd))

theorem parseUnsigned_natToStr (n : Nat) :
    parseUnsigned (natToStr n) = some (n, 0) := by
  rw [parseUnsigned]
  simp only [takeWhile_all (natToStr_digits n), dropWhile_all (natToStr_digits n)]
  rw [if_neg (natToStr_ne_nil n)]
  rw [parseNat_natToStr]

theorem pyStrip_natToStr (n : Nat) : pyStrip (natToStr n) = natToStr n := by
  apply pyStrip_eq_self_of_all
  intro c hc
  have hd := natToStr_digits n c hc
  have := isDigit_iff.mp hd
  rw [Bool.eq_false_iff]
  intro hs
  have := isPySpace_iff.mp hs
  omega

theorem head?_natToStr_digit (n : Nat) :
    ∀ c, (natToStr n).head? = some c → c.isDigit = true := by
  intro c hc
  have hmem : c ∈ natToStr n := by
    cases h : natToStr n with
    | nil => rw [h] at hc; simp at hc
    | cons a as =>
      rw [h] at hc
      simp only [List.head?_cons, Option.some.injEq] at hc
      rw [← hc]
      exact List.mem_cons_self a as
  exact natToStr_digits n c hmem

theorem coerce_intToStr (n : Int) :
    coerce_company_id (intToStr n) = Except.ok (some n) := by
  by_cases hneg : n < 0
  · have hrender : intToStr n = '-' :: natToStr n.natAbs := by
      rw [intToStr, if_pos hneg]
    have hstrip : pyStrip ('-' :: natToStr n.natAbs) = '-' :: natToStr n.natAbs := by
      apply pyStrip_eq_self_of_all
      intro c hc
      rcases List.mem_cons.mp hc with hc | hc
      · subst hc; decide
      · have hd := natToStr_digits n.natAbs c hc
        have := isDigit_iff.mp hd
        rw [Bool.eq_false_iff]
        intro hs
        have := isPySpace_iff.mp hs
        omega
    rw [coerce_company_id]
    simp only [to_numeric_coerce, hrender, hstrip, List.head?_cons,
      List.tail_cons, parseUnsigned_natToStr]
    rw [if_neg (by decide), if_pos (by decide)]
    simp only [Option.map_some, Option.map_some', astypeInt64, pow_zero,
      Int.emod_one, if_pos rfl, Int.ediv_one]
    rw [show -((n.natAbs : Int)) = n by omega]
    simp
  · have habs : (n.natAbs : Int) = n := by omega
    have hrender : intToStr n = natToStr n.natAbs := by
      rw [intToStr, if_neg hneg]
    rw [coerce_company_id]
    simp only [to_numeric_coerce, hrender, pyStrip_natToStr]
    have hhead : ∀ c, (natToStr n.natAbs).head? = some c → c ≠ '+' ∧ c ≠ '-' := by
      intro c hc
      have hd := head?_natToStr_digit n.natAbs c hc
      constructor <;> intro he <;> subst he <;> exact absurd hd (by decide)
    have hplus : (natToStr n.natAbs).head? ≠ some '+' := by
      intro hc
      exact (hhead '+' hc).1 rfl
    have hminus : (natToStr n.natAbs).head? ≠ some '-' := by
      intro hc
      exact (hhead '-' hc).2 rfl
    rw [if_neg hplus, if_neg hminus]
    simp only [parseUnsigned_natToStr, Option.map_some, Option.map_some',
      astypeInt64, pow_zero, Int.emod_one, if_pos rfl, Int.ediv_one]
    rw [habs]
    simp

/-! ## dedup lemmas -/

theorem dedupAux_sublist (seen : List (Option Int × Option Str)) :
    ∀ l : List CleanRecord, (dedupAux seen l).Sublist l := by
  intro l
  induction l generalizing seen with
  | nil => simp [dedupAux]
  | cons r rs ih =>
    rw [dedupAux]
    by_cases h : recKey r ∈ seen
    · rw [if_pos h]
      exact (ih seen).trans (List.sublist_cons_self r rs)
    · rw [if_neg h]
      exact List.Sublist.cons₂ r (ih (recKey r :: seen))

theorem dedupAux_not_seen (seen : List (Option Int × Option Str)) :
    ∀ l : List CleanRecord, ∀ r ∈ dedupAux seen l, recKey r ∉ seen := by
  intro l
  induction l generalizing seen with
  | nil => simp [dedupAux]
  | cons r rs ih =>
    intro x hx
    rw [dedupAux] at hx
    by_cases h : recKey r ∈ seen
    · rw [if_pos h] at hx
      exact ih seen x hx
    · rw [if_neg h] at hx
      rcases List.mem_cons.mp hx with hx | hx
      · subst hx; exact h
      · have := ih (recKey r :: seen) x hx
        intro hc
        exact this (List.mem_cons_of_mem _ hc)

theorem dedupAux_nodup (seen : List (Option Int × Option Str)) :
    ∀ l : List CleanRecord, ((dedupAux seen l).map recKey).Nodup := by
  intro l
  induction l generalizing seen with
  | nil => simp [dedupAux]
  | cons r rs ih =>
    rw [dedupAux]
    by_cases h : recKey r ∈ seen
    · rw [if_pos h]
      exact ih seen
    · rw [if_neg h]
      simp only [List.map_cons, List.nodup_cons]
      constructor
      · intro hc
        rcases List.mem_map.mp hc with ⟨x, hx, hkx⟩
        have := dedupAux_not_seen (recKey r :: seen) rs x hx
        exact this (by rw [hkx]; exact List.mem_cons_self _ _)
      · exact ih (recKey r :: seen)

theorem dedupAux_find (seen : List (Option Int × Option Str)) :
    ∀ l : List CleanRecord, ∀ r ∈ dedupAux seen l,
      l.find? (fun x => decide (recKey x = recKey r)) = some r := by
  intro l
  induction l generalizing seen with
  | nil => simp [dedupAux]
  | cons r rs ih =>
    intro x hx
    rw [dedupAux] at hx
    by_cases h : recKey r ∈ seen
    · rw [if_pos h] at hx
      have hne : recKey r ≠ recKey x := by
        intro hc
        exact dedupAux_not_seen seen rs x hx (hc ▸ h)
      rw [List.find?_cons]
      simp only [decide_eq_false hne]
      exact ih seen x hx
    · rw [if_neg h] at hx
      rcases List.mem_cons.mp hx with hx | hx
      · subst hx
        rw [List.find?_cons]
        simp
      · have hns := dedupAux_not_seen (recKey r :: seen) rs x hx
        have hne : recKey r ≠ recKey x := by
          intro hc
          exact hns (hc ▸ List.mem_cons_self _ _)
        rw [List.find?_cons]
        simp only [decide_eq_false hne]
        exact ih (recKey r :: seen) x hx

theorem dedupAux_length (seen : List (Option Int × Option Str)) :
    ∀ l : List CleanRecord,
      (dedupAux seen l).length + countDupAux seen l = l.length := by
  intro l
  induction l generalizing seen with
  | nil => simp [dedupAux, countDupAux]
  | cons r rs ih =>
    rw [dedupAux, countDupAux]
    by_cases h : recKey r ∈ seen
    · rw [if_pos h, if_pos h]
      have := ih seen
      simp only [List.length_cons]
      omega
    · rw [if_neg h, if_neg h]
      have := ih (recKey r :: seen)
      simp only [List.length_cons]
      omega

theorem dedupAux_eq_self (seen : List (Option Int × Option Str)) :
    ∀ l : List CleanRecord, ((l.map recKey).Nodup) →
      (∀ r ∈ l, recKey r ∉ seen) → dedupAux seen l = l := by
  intro l
  induction l generalizing seen with
  | nil => intro _ _; rfl
  | cons r rs ih =>
    intro hnd hns
    have hnd' : recKey r ∉ List.map recKey rs ∧ (List.map recKey rs).Nodup := by
      rw [List.map_cons, List.nodup_cons] at hnd
      exact hnd
    rw [dedupAux, if_neg (hns r (List.mem_cons_self r rs))]
    congr 1
    apply ih
    · exact hnd'.2
    · intro x hx
      have hx1 : recKey x ∉ seen := hns x (List.mem_cons_of_mem r hx)
      have hx2 : recKey x ≠ recKey r := by
        intro hc
        exact hnd'.1 (hc ▸ List.mem_map_of_mem recKey hx)
      intro hc
      rcases List.mem_cons.mp hc with hc | hc
      · exact hx2 hc
      · exact hx1 hc

theorem dedup_records_idem (l : List CleanRecord) :
    dedup_records (dedup_records l) = dedup_records l := by
  rw [dedup_records, dedup_records]
  apply dedupAux_eq_self
  · exact dedupAux_nodup [] l
  · intro r _
    simp

/-! ## transform_all lemmas -/

theorem transform_all_length {rs : List RawRecord} {ts : List CleanRecord}
    (h : transform_all rs = Except.ok ts) : ts.length = rs.length := by
  induction rs generalizing ts with
  | nil =>
    rw [transform_all] at h
    cases h
    rfl
  | cons r rest ih =>
    rw [transform_all] at h
    cases hr : transform_record r with
    | error e => rw [hr] at h; cases h
    | ok c =>
      rw [hr] at h
      cases hrest : transform_all rest with
      | error e => rw [hrest] at h; cases h
      | ok cs =>
        rw [hrest] at h
        cases h
        simp [ih hrest]

theorem clean_dataframe_of_ok {rs : List RawRecord} {ts : List CleanRecord}
    (h : transform_all rs = Except.ok ts) :
    clean_dataframe rs = Except.ok (dedup_records ts) := by
  rw [clean_dataframe, h]

/-! ## crawl unfolding equations -/

theorem crawlAux_none (site : Site) (seen : List Str) :
    crawlAux site none seen = [] := by
  rw [crawlAux]

theorem crawlAux_missing {site : Site} {loc : Str} (seen : List Str)
    (h : siteLookup site loc = none) :
    crawlAux site (some loc) seen = [] := by
  rw [crawlAux]
  split
  · rfl
  · rename_i doc heq
    rw [h] at heq
    cases heq

theorem crawlAux_revisit {site : Site} {loc : Str} {seen : List Str}
    (hseen : loc ∈ seen) : crawlAux site (some loc) seen = [] := by
  rw [crawlAux]
  split
  · rfl
  · rename_i doc heq
    simp [hseen]

theorem crawlAux_step {site : Site} {loc : Str} {seen : List Str}
    {doc : Document} (h : siteLookup site loc = some doc)
    (hseen : loc ∉ seen) :
    crawlAux site (some loc) seen =
      (parse_company_table doc).1 ++
        crawlAux site (parse_company_table doc).2 (loc :: seen) := by
  rw [crawlAux]
  split
  · rename_i heq
    rw [h] at heq
    cases heq
  · rename_i doc' heq
    rw [h] at heq
    cases heq
    simp [hseen]

theorem visitSeq_none (site : Site) (seen : List Str) :
    visitSeq site none seen = [] := by
  rw [visitSeq]

theorem visitSeq_missing {site : Site} {loc : Str} (seen : List Str)
    (h : siteLookup site loc = none) :
    visitSeq site (some loc) seen = [] := by
  rw [visitSeq]
  split
  · rfl
  · rename_i doc heq
    rw [h] at heq
    cases heq

theorem visitSeq_revisit {site : Site} {loc : Str} {seen : List Str}
    (hseen : loc ∈ seen) : visitSeq site (some loc) seen = [] := by
  rw [visitSeq]
  split
  · rfl
  · rename_i doc heq
    simp [hseen]

theorem visitSeq_step {site : Site} {loc : Str} {seen : List Str}
    {doc : Document} (h : siteLookup site loc = some doc)
    (hseen : loc ∉ seen) :
    visitSeq site (some loc) seen =
      loc :: visitSeq site (parse_company_table doc).2 (loc :: seen) := by
  rw [visitSeq]
  split
  · rename_i heq
    rw [h] at heq
    cases heq
  · rename_i doc' heq
    rw [h] at heq
    cases heq
    simp [hseen]

/-! ## crawl structure theorems -/

theorem crawlAux_eq_flatMap (site : Site) (cur : Option Str)
    (seen : List Str) :
    crawlAux site cur seen =
      (visitSeq site cur seen).flatMap (pageRows site) := by
  induction cur, seen using visitSeq.induct site with
  | case1 s => rw [crawlAux_none, visitSeq_none]; rfl
  | case2 s l hdoc => rw [crawlAux_missing s hdoc, visitSeq_missing s hdoc]; rfl
  | case3 s l doc hdoc hseen =>
    rw [crawlAux_revisit hseen, visitSeq_revisit hseen]
    rfl
  | case4 s l doc hdoc hseen ih =>
    rw [crawlAux_step hdoc hseen, visitSeq_step hdoc hseen, List.flatMap_cons,
      ih]
    congr 1
    rw [pageRows, hdoc]

theorem visitSeq_fresh (site : Site) (cur : Option Str) (seen : List Str) :
    ∀ l ∈ visitSeq site cur seen, l ∉ seen := by
  induction cur, seen using visitSeq.induct site with
  | case1 s => rw [visitSeq_none]; simp
  | case2 s l hdoc => rw [visitSeq_missing s hdoc]; simp
  | case3 s l doc hdoc hseen => rw [visitSeq_revisit hseen]; simp
  | case4 s l doc hdoc hseen ih =>
    rw [visitSeq_step hdoc hseen]
    intro x hx
    rcases List.mem_cons.mp hx with hx | hx
    · subst hx; exact hseen
    · have := ih x hx
      intro hc
      exact this (List.mem_cons_of_mem _ hc)

theorem visitSeq_nodup (site : Site) (cur : Option Str) (seen : List Str) :
    (visitSeq site cur seen).Nodup := by
  induction cur, seen using visitSeq.induct site with
  | case1 s => rw [visitSeq_none]; simp
  | case2 s l hdoc => rw [visitSeq_missing s hdoc]; simp
  | case3 s l doc hdoc hseen => rw [visitSeq_revisit hseen]; simp
  | case4 s l doc hdoc hseen ih =>
    rw [visitSeq_step hdoc hseen]
    rw [List.nodup_cons]
    constructor
    · intro hc
      exact visitSeq_fresh site (parse_company_table doc).2 (l :: s) l hc
        (List.mem_cons_self l s)
    · exact ih

theorem visitSeq_exists (site : Site) (cur : Option Str) (seen : List Str) :
    ∀ l ∈ visitSeq site cur seen, ∃ d, siteLookup site l = some d := by
  induction cur, seen using visitSeq.induct site with
  | case1 s => rw [visitSeq_none]; simp
  | case2 s l hdoc => rw [visitSeq_missing s hdoc]; simp
  | case3 s l doc hdoc hseen => rw [visitSeq_revisit hseen]; simp
  | case4 s l doc hdoc hseen ih =>
    rw [visitSeq_step hdoc hseen]
    intro x hx
    rcases List.mem_cons.mp hx with hx | hx
    · subst hx; exact ⟨doc, hdoc⟩
    · exact ih x hx

/-! ## crawl unfolding equations and structure, full file-system model -/

theorem crawlFsAux_none (site : FsSite) (seen : List Str) :
    crawlFsAux site none seen = Except.ok [] := by
  rw [crawlFsAux]

theorem crawlFsAux_missing {site : FsSite} {loc : Str} (seen : List Str)
    (h : fsLookup site loc = none) :
    crawlFsAux site (some loc) seen = Except.ok [] := by
  rw [crawlFsAux]
  split
  · rfl
  · rename_i file heq
    rw [h] at heq
    cases heq

theorem crawlFsAux_revisit {site : FsSite} {loc : Str} {seen : List Str}
    (hseen : loc ∈ seen) :
    crawlFsAux site (some loc) seen = Except.ok [] := by
  rw [crawlFsAux]
  split
  · rfl
  · rename_i file heq
    simp [hseen]

theorem crawlFsAux_unreadable {site : FsSite} {loc : Str} {seen : List Str}
    (h : fsLookup site loc = some PageFile.unreadable)
    (hseen : loc ∉ seen) :
    crawlFsAux site (some loc) seen =
      Except.error "read_text raised".data := by
  rw [crawlFsAux]
  split
  · rename_i heq
    rw [h] at heq
    cases heq
  · rename_i file heq
    rw [h] at heq
    cases heq
    simp [hseen]

theorem crawlFsAux_readable {site : FsSite} {loc : Str} {seen : List Str}
    {doc : Document}
    (h : fsLookup site loc = some (PageFile.readable doc))
    (hseen : loc ∉ seen) :
    crawlFsAux site (some loc) seen =
      Except.map (fun rest => (parse_company_table doc).1 ++ rest)
        (crawlFsAux site (parse_company_table doc).2 (loc :: seen)) := by
  rw [crawlFsAux]
  split
  · rename_i heq
    rw [h] at heq
    cases heq
  · rename_i file heq
    rw [h] at heq
    cases heq
    simp [hseen]

theorem embedFs_lookup (site : Site) (loc : Str) :
    fsLookup (embedFs site) loc =
      (siteLookup site loc).map PageFile.readable := by
  induction site with
  | nil => rfl
  | cons hd tl ih =>
    obtain ⟨k, d⟩ := hd
    by_cases hk : k = loc
    · simp [embedFs, fsLookup, siteLookup, hk]
    · simp only [embedFs, List.map_cons, fsLookup, siteLookup, if_neg hk]
      simpa [embedFs] using ih

/-- On a site all of whose existing files are readable, the full model's
crawl never raises and agrees with the all-readable sub-model. -/
theorem crawlFs_readable (site : Site) (cur : Option Str)
    (seen : List Str) :
    crawlFsAux (embedFs site) cur seen =
      Except.ok (crawlAux site cur seen) := by
  induction cur, seen using crawlAux.induct site with
  | case1 s => rw [crawlFsAux_none, crawlAux_none]
  | case2 s l hdoc =>
    have hl : fsLookup (embedFs site) l = none := by
      rw [embedFs_lookup, hdoc]
      rfl
    rw [crawlFsAux_missing s hl, crawlAux_missing s hdoc]
  | case3 s l doc hdoc hseen =>
    rw [crawlFsAux_revisit hseen, crawlAux_revisit hseen]
  | case4 s l doc hdoc hseen ih =>
    have hl : fsLookup (embedFs site) l =
        some (PageFile.readable doc) := by
      rw [embedFs_lookup, hdoc]
      rfl
    rw [crawlFsAux_readable hl hseen, ih, crawlAux_step hdoc hseen]
    rfl

/-! ## parser lemmas -/

theorem rowToRecord_none {cols : List Str} (h : cols.length ≠ 6) :
    rowToRecord cols = none := by
  rcases cols with _ | ⟨a, _ | ⟨b, _ | ⟨c, _ | ⟨d, _ | ⟨e, _ | ⟨f, _ | ⟨g, rest⟩⟩⟩⟩⟩⟩⟩ <;>
    first
      | rfl
      | (exfalso; exact h rfl)

theorem countryMap_lookup_none {k : Str} (h : k ∉ countryMap.map Prod.fst) :
    List.lookup k countryMap = none := by
  simp only [countryMap, List.map_cons, List.map_nil, List.mem_cons,
    List.not_mem_nil, or_false, not_or] at h
  obtain ⟨h1, h2, h3, h4, h5, h6⟩ := h
  simp [List.lookup, countryMap, beq_eq_false_iff_ne.mpr h1,
    beq_eq_false_iff_ne.mpr h2, beq_eq_false_iff_ne.mpr h3,
    beq_eq_false_iff_ne.mpr h4, beq_eq_false_iff_ne.mpr h5,
    beq_eq_false_iff_ne.mpr h6]

theorem normalize_phone_unfold {raw : Str} (hm : isMissingPhone raw = false) :
    normalize_phone raw =
      if stripPhone raw ≠ [] ∧ (stripPhone raw).head? ≠ some '+' then
        if (stripPhone raw).length = 11 ∧ (stripPhone raw).head? = some '1'
          then '+' :: stripPhone raw
        else if (stripPhone raw).length = 10 then '+' :: '1' :: stripPhone raw
        else stripPhone raw
      else stripPhone raw := by
  simp only [normalize_phone, hm, Bool.false_eq_true, if_false]

/-! ## Concrete pages, sites and records used in closed statements -/

def rowA : List Str :=
  ["1".data, "Acme".data, "Tech".data, "a@x.com".data, "".data, "usa".data]

def recA : RawRecord :=
  { companyID := "1".data, companyName := "Acme".data,
    category := "Tech".data, email := "a@x.com".data, phone := "".data,
    country := "usa".data }

def rowB : List Str :=
  ["2".data, "Beta".data, "Retail".data, "b@x.com".data, "".data, "uk".data]

def recB : RawRecord :=
  { companyID := "2".data, companyName := "Beta".data,
    category := "Retail".data, email := "b@x.com".data, phone := "".data,
    country := "uk".data }

/-- Page `a`: one row, next link pointing at `b`. -/
def docA : Document :=
  { table := some { tbody := some [rowA] }, next_link := some (some "b".data) }

/-- Page `b`: one row, next link pointing back at `a` (a cycle). -/
def docB : Document :=
  { table := some { tbody := some [rowB] }, next_link := some (some "a".data) }

/-- A two-page site whose pagination is circular: a → b → a. -/
def cycSite : Site := [("a".data, docA), ("b".data, docB)]

/-- A page that exists but holds no table and no next link. -/
def emptyDoc : Document := { table := none, next_link := none }

/-- A site whose entry page exists but yields no records. -/
def emptyPageSite : Site := [("page1.html".data, emptyDoc)]

/-- A page whose table exists but has no `tbody`, with a next link that
does carry a target locator. -/
def noBodyDoc : Document :=
  { table := some { tbody := none }, next_link := some (some "p2".data) }

/-- A site where the entry page has a body-less table and the next page
(reachable only through the ignored next link) has records. -/
def noBodySite : Site :=
  [("p1".data, noBodyDoc),
   ("p2".data, { table := some { tbody := some [rowB] }, next_link := none })]

/-- Page `p1` of the unreadable-page site: one row, next link to `p2`. -/
def docP1 : Document :=
  { table := some { tbody := some [rowA] }, next_link := some (some "p2".data) }

/-- A site whose entry page is readable and whose second page exists but
cannot be read. -/
def unreadableSite : FsSite :=
  [("p1".data, PageFile.readable docP1),
   ("p2".data, PageFile.unreadable)]

/-- The site of `emptyPageSite`, in the full file-system model. -/
def emptyFsPageSite : FsSite :=
  [("page1.html".data, PageFile.readable emptyDoc)]

theorem crawl_cycSite_eq : crawl cycSite "a".data = [recA, recB] := by
  have hA : siteLookup cycSite "a".data = some docA := by decide
  have hB : siteLookup cycSite "b".data = some docB := by decide
  rw [crawl, crawlAux_step hA (by simp),
    show parse_company_table docA = ([recA], some "b".data) by decide]
  show [recA] ++ crawlAux cycSite (some "b".data) ["a".data] = [recA, recB]
  rw [crawlAux_step hB (by decide),
    show parse_company_table docB = ([recB], some "a".data) by decide]
  show [recA] ++ ([recB] ++
    crawlAux cycSite (some "a".data) ["b".data, "a".data]) = [recA, recB]
  rw [crawlAux_revisit (by decide)]
  rfl

/-- C1: `normalize_phone` implements the spec's canonicalization policy. -/
theorem claim_C1 :
    (∀ raw : Str, isMissingPhone raw = false →
      (∀ c ∈ stripPhone raw, c.isDigit = true) →
      (((stripPhone raw).length = 11 ∧ (stripPhone raw).head? = some '1' →
          normalize_phone raw = '+' :: stripPhone raw) ∧
        ((stripPhone raw).length = 10 →
          normalize_phone raw = '+' :: '1' :: stripPhone raw) ∧
        (¬((stripPhone raw).length = 11 ∧ (stripPhone raw).head? = some '1') →
          (stripPhone raw).length ≠ 10 →
          normalize_phone raw = stripPhone raw))) ∧
    normalize_phone "(555) 123-4567".data = "+15551234567".data ∧
    normalize_phone "1-555-123-4567".data = "+15551234567".data ∧
    normalize_phone "+44 20 7946 0958".data = "+442079460958".data ∧
    phoneField "N/A".data = none ∧
    normalize_phone "12345".data = "12345".data := by
  refine ⟨?_, by decide, by decide, by decide, by decide, by decide⟩
  intro raw hm hdig
  have hhead : (∀ c : Char, (stripPhone raw).head? = some c → c ≠ '+') := by
    intro c hc hplus
    have hcmem : c ∈ stripPhone raw := by
      cases hs : stripPhone raw with
      | nil => rw [hs] at hc; cases hc
      | cons a as =>
        rw [hs] at hc
        simp only [List.head?_cons, Option.some.injEq] at hc
        rw [← hc]
        exact List.mem_cons_self a as
    have := hdig c hcmem
    subst hplus
    exact absurd this (by decide)
  have hnp : (stripPhone raw).head? ≠ some '+' := by
    intro hc
    exact hhead '+' hc rfl
  refine ⟨?_, ?_, ?_⟩
  · intro h11
    have hne : stripPhone raw ≠ [] := by
      intro hc
      rw [hc] at h11
      simp at h11
    rw [normalize_phone_unfold hm, if_pos ⟨hne, hnp⟩, if_pos h11]
  · intro h10
    have hne : stripPhone raw ≠ [] := by
      intro hc
      rw [hc] at h10
      simp at h10
    have h11 : ¬((stripPhone raw).length = 11 ∧
        (stripPhone raw).head? = some '1') := by
      rintro ⟨hl, _⟩
      omega
    rw [normalize_phone_unfold hm, if_pos ⟨hne, hnp⟩, if_neg h11, if_pos h10]
  · intro hn11 hn10
    by_cases hne : stripPhone raw = []
    · rw [normalize_phone_unfold hm, if_neg (by simp [hne])]
    · rw [normalize_phone_unfold hm, if_pos ⟨hne, hnp⟩, if_neg hn11,
        if_neg hn10]

/-- C1 witness: the three digit-count branches exercised at concrete
all-digit inputs. -/
theorem claim_C1_witness :
    normalize_phone "15551234567".data = '+' :: stripPhone "15551234567".data ∧
    normalize_phone "5551234567".data =
      '+' :: '1' :: stripPhone "5551234567".data ∧
    normalize_phone "12345".data = stripPhone "12345".data :=
  ⟨(claim_C1.1 "15551234567".data (by decide) (by decide)).1 (by decide),
   (claim_C1.1 "5551234567".data (by decide) (by decide)).2.1 (by decide),
   (claim_C1.1 "12345".data (by decide) (by decide)).2.2 (by decide)
     (by decide)⟩

/-! ## Sample records for the dedup witness, and remaining claim data -/

def dupRaw1 : RawRecord :=
  { companyID := "1".data, companyName := "A".data, category := "B".data,
    email := "e@x".data, phone := "".data, country := "".data }

def dupRaw2 : RawRecord :=
  { companyID := "1".data, companyName := "C".data, category := "B".data,
    email := "e@x".data, phone := "".data, country := "".data }

def dupRaw3 : RawRecord :=
  { companyID := "2".data, companyName := "D".data, category := "B".data,
    email := "f@x".data, phone := "".data, country := "".data }

def dupClean1 : CleanRecord :=
  { companyID := some 1, companyName := "A".data, category := "B".data,
    email := some "e@x".data, phone := none, country := "".data }

def dupClean2 : CleanRecord :=
  { companyID := some 1, companyName := "C".data, category := "B".data,
    email := some "e@x".data, phone := none, country := "".data }

def dupClean3 : CleanRecord :=
  { companyID := some 2, companyName := "D".data, category := "B".data,
    email := some "f@x".data, phone := none, country := "".data }

/-- The claim's required shape for the stripped phone intermediate: only
digits, optionally preceded by one leading `+`, no `+` elsewhere. -/
def leadingPlusShape (l : Str) : Bool :=
  match l with
  | '+' :: rest => rest.all Char.isDigit
  | _ => l.all Char.isDigit

/-- A record whose `CompanyID` is a non-integral numeric string. -/
def badIdRecord : RawRecord :=
  { companyID := "3.5".data, companyName := "Acme".data,
    category := "Tech".data, email := "a@x.com".data, phone := "".data,
    country := "usa".data }

/-- A malformed 5-cell table row. -/
def badRow5 : List Str :=
  ["9".data, "Gap".data, "Tech".data, "g@x.com".data, "".data]

/-- C2: the deduplicated output has pairwise distinct `(CompanyID, Email)`
keys (nulls compare equal), exactly `N − K` records survive, survivors are
a subsequence of the transformed records (order preserved), and each
survivor is the first record carrying its key. -/
theorem claim_C2 (rs : List RawRecord) (ts : List CleanRecord)
    (h : transform_all rs = Except.ok ts) :
    clean_dataframe rs = Except.ok (dedup_records ts) ∧
    ((dedup_records ts).map recKey).Nodup ∧
    (dedup_records ts).length + countDupPairs ts = rs.length ∧
    (dedup_records ts).Sublist ts ∧
    (∀ r ∈ dedup_records ts,
      ts.find? (fun x => decide (recKey x = recKey r)) = some r) := by
  refine ⟨clean_dataframe_of_ok h, dedupAux_nodup [] ts, ?_,
    dedupAux_sublist [] ts, dedupAux_find [] ts⟩
  have h1 := dedupAux_length [] ts
  have h2 := transform_all_length h
  rw [dedup_records, countDupPairs]
  omega

theorem claim_C2_witness :
    clean_dataframe [dupRaw1, dupRaw2, dupRaw3] =
      Except.ok (dedup_records [dupClean1, dupClean2, dupClean3]) ∧
    ((dedup_records [dupClean1, dupClean2, dupClean3]).map recKey).Nodup ∧
    (dedup_records [dupClean1, dupClean2, dupClean3]).length +
      countDupPairs [dupClean1, dupClean2, dupClean3] = 3 := by
  have h : transform_all [dupRaw1, dupRaw2, dupRaw3] =
      Except.ok [dupClean1, dupClean2, dupClean3] := by decide
  exact ⟨(claim_C2 _ _ h).1, (claim_C2 _ _ h).2.1, (claim_C2 _ _ h).2.2.1⟩

/-- C3: the crawl is a total function (terminates on every site, cyclic
chains included); its result is the concatenation, in traversal order, of
the rows of the pages in the visit sequence; no page is visited twice;
every visited page exists; and on the concrete circular site a → b → a the
crawl returns exactly the two pages' records once each. -/
theorem claim_C3 (site : Site) (entry : Str) :
    crawl site entry =
      (visitSeq site (some entry) []).flatMap (pageRows site) ∧
    (visitSeq site (some entry) []).Nodup ∧
    (∀ loc ∈ visitSeq site (some entry) [],
      ∃ d, siteLookup site loc = some d) ∧
    crawl cycSite "a".data = [recA, recB] :=
  ⟨crawlAux_eq_flatMap site (some entry) [], visitSeq_nodup site _ _,
   visitSeq_exists site _ _, crawl_cycSite_eq⟩

/-- C4 counterexample: on a raw phone string that is not a missing-value
sentinel, the stripped intermediate can retain a `+` at a non-leading
position, contradicting the claimed "only a single leading `+`" shape. -/
theorem claim_C4_cex :
    isMissingPhone "+1 (555) 123-4567 +".data = false ∧
    leadingPlusShape (stripPhone "+1 (555) 123-4567 +".data) = false := by
  decide

/-- C4 amended: the stripping step removes every character that is neither
a digit nor a `+` — the result is a subsequence of the input consisting
only of digits and `+` signs, each kept wherever (and as often as) it
occurs, with every other character removed. -/
theorem claim_C4 (raw : Str) :
    (stripPhone raw).Sublist raw ∧
    (∀ c ∈ stripPhone raw, c.isDigit = true ∨ c = '+') ∧
    (∀ c : Char, (c.isDigit || c == '+') = true →
      (stripPhone raw).count c = raw.count c) ∧
    (∀ c : Char, (c.isDigit || c == '+') = false → c ∉ stripPhone raw) := by
  refine ⟨List.filter_sublist raw, ?_, ?_, ?_⟩
  · intro c hc
    have hp := stripPhone_all raw c hc
    rcases Bool.or_eq_true _ _ |>.mp hp with h | h
    · exact Or.inl h
    · exact Or.inr (by simpa using h)
  · intro c hc
    rw [stripPhone]
    exact List.count_filter hc
  · intro c hc hmem
    have := stripPhone_all raw c hmem
    rw [hc] at this
    cases this

theorem claim_C4_witness :
    (stripPhone "+1 (555) 123-4567 +".data).count '5' =
      "+1 (555) 123-4567 +".data.count '5' ∧
    ('5'.isDigit = true ∨ '5' = '+') ∧
    ' ' ∉ stripPhone "+1 (555) 123-4567 +".data :=
  ⟨(claim_C4 "+1 (555) 123-4567 +".data).2.2.1 '5' (by decide),
   (claim_C4 "+1 (555) 123-4567 +".data).2.1 '5' (by decide),
   (claim_C4 "+1 (555) 123-4567 +".data).2.2.2 ' ' (by decide)⟩

/-- C5: contrary to the claim (and to the script's own "convert to numeric
safely" comments), the identifier-coercion step can raise: on the
company_id string `"3.5"`, `pd.to_numeric` yields the numeric value
35/10, and the `astype("Int64")` cast of that non-integral value raises
`TypeError` instead of producing a null field. -/
theorem claim_C5_bug :
    clean_dataframe [badIdRecord] =
      Except.error
        "cannot safely cast non-equivalent float64 to int64".data ∧
    to_numeric_coerce "3.5".data = some (35, 1) := by decide

/-- C6 amended: a missing document (the file does not exist) terminates
the crawl normally on the spot — the remaining crawl contributes no
records and no error, so the crawl returns exactly what was accumulated
before it — and a missing entry document yields an empty result. The
rest of the original claim fails on the code and is refuted by
`claim_C6_cex`: an existing-but-unreadable document does not terminate
the crawl normally (the `read_text` exception propagates uncaught, as the
third conjunct states), and an empty result does not imply that the entry
document was missing. -/
theorem claim_C6 (site : FsSite) (loc entry : Str) (seen : List Str)
    (h : fsLookup site loc = none) :
    crawlFsAux site (some loc) seen = Except.ok [] ∧
    (fsLookup site entry = none → crawlFs site entry = Except.ok []) ∧
    (∀ (loc' : Str) (seen' : List Str),
      fsLookup site loc' = some PageFile.unreadable → loc' ∉ seen' →
      crawlFsAux site (some loc') seen' =
        Except.error "read_text raised".data) :=
  ⟨crawlFsAux_missing seen h, fun he => crawlFsAux_missing [] he,
   fun _ _ hu hs => crawlFsAux_unreadable hu hs⟩

theorem claim_C6_witness :
    crawlFsAux unreadableSite (some "zzz".data) [] = Except.ok [] ∧
    crawlFs unreadableSite "zzz".data = Except.ok [] ∧
    crawlFsAux unreadableSite (some "p2".data) [] =
      Except.error "read_text raised".data := by
  have h : fsLookup unreadableSite "zzz".data = none := by decide
  have hc := claim_C6 unreadableSite "zzz".data "zzz".data [] h
  exact ⟨hc.1, hc.2.1 h, hc.2.2 "p2".data [] (by decide) (by simp)⟩

/-- C6 counterexample, refuting the original claim at concrete inputs.
First, a crawl that reaches an existing-but-unreadable document after the
first page does not terminate normally with the records accumulated so
far (here `[recA]` from page `p1`): the uncaught read exception aborts it
with no record list at all. Second, an entry page that exists but has no
table yields an empty crawl, so an empty result does not imply that the
entry document was missing. -/
theorem claim_C6_cex :
    (fsLookup unreadableSite "p2".data = some PageFile.unreadable ∧
      crawlFs unreadableSite "p1".data =
        Except.error "read_text raised".data ∧
      (∀ rows : List RawRecord,
        crawlFs unreadableSite "p1".data ≠ Except.ok rows)) ∧
    (fsLookup emptyFsPageSite "page1.html".data ≠ none ∧
      crawlFs emptyFsPageSite "page1.html".data = Except.ok []) := by
  have herr : crawlFs unreadableSite "p1".data =
      Except.error "read_text raised".data := by
    rw [crawlFs, crawlFsAux_readable
      (show fsLookup unreadableSite "p1".data =
        some (PageFile.readable docP1) by decide)
      (by simp),
      show parse_company_table docP1 = ([recA], some "p2".data) by decide]
    rw [crawlFsAux_unreadable (by decide) (by decide)]
    rfl
  refine ⟨⟨by decide, herr, fun rows hok => ?_⟩, by decide, ?_⟩
  · rw [herr] at hok
    cases hok
  · rw [crawlFs, crawlFsAux_readable
      (show fsLookup emptyFsPageSite "page1.html".data =
        some (PageFile.readable emptyDoc) by decide)
      (by simp)]
    show Except.map (fun rest => ([] : List RawRecord) ++ rest)
      (crawlFsAux emptyFsPageSite none ["page1.html".data]) = Except.ok []
    rw [crawlFsAux_none]
    rfl

/-- C7: `normalize_country` maps each known variant (case-insensitively,
after trimming) to its canonical label, falls back to title-casing the
trimmed input on any unknown country (never rejecting it), and maps
`"bRaZiL"` to `"Brazil"`. -/
theorem claim_C7 (raw : Str) :
    (pyLower (pyStrip raw) = "usa".data ∨
        pyLower (pyStrip raw) = "united states".data →
      normalize_country raw = "United States".data) ∧
    (pyLower (pyStrip raw) = "canada".data →
      normalize_country raw = "Canada".data) ∧
    (pyLower (pyStrip raw) = "uk".data ∨
        pyLower (pyStrip raw) = "united kingdom".data →
      normalize_country raw = "United Kingdom".data) ∧
    (pyLower (pyStrip raw) = "mexico".data →
      normalize_country raw = "Mexico".data) ∧
    (pyLower (pyStrip raw) ∉ countryMap.map Prod.fst →
      normalize_country raw = pyTitle (pyStrip raw)) ∧
    normalize_country "bRaZiL".data = "Brazil".data := by
  by_cases hraw : raw = []
  · subst hraw
    refine ⟨fun h => ?_, fun h => ?_, fun h => ?_, fun h => ?_,
      fun h => by decide, by decide⟩
    · rcases h with h | h <;> exact absurd h (by decide)
    · exact absurd h (by decide)
    · rcases h with h | h <;> exact absurd h (by decide)
    · exact absurd h (by decide)
  · refine ⟨fun h => ?_, fun h => ?_, fun h => ?_, fun h => ?_,
      fun h => ?_, by decide⟩
    · rcases h with h | h <;>
        exact normalize_country_of_lookup hraw (by rw [h]; decide)
    · exact normalize_country_of_lookup hraw (by rw [h]; decide)
    · rcases h with h | h <;>
        exact normalize_country_of_lookup hraw (by rw [h]; decide)
    · exact normalize_country_of_lookup hraw (by rw [h]; decide)
    · exact normalize_country_fallback hraw (countryMap_lookup_none h)

theorem claim_C7_witness :
    normalize_country "usa".data = "United States".data ∧
    normalize_country " Canada ".data = "Canada".data ∧
    normalize_country "Atlantis".data = pyTitle (pyStrip "Atlantis".data) :=
  ⟨(claim_C7 "usa".data).1 (Or.inl (by decide)),
   (claim_C7 " Canada ".data).2.1 (by decide),
   (claim_C7 "Atlantis".data).2.2.2.2.1 (by decide)⟩

/-- C8: each field transform is a fixed point on its own output — an
integer id re-fed as its decimal rendering coerces back to itself (and a
null id re-fed as the empty string stays null), title-casing, email
lower/trim, phone canonicalization and country canonicalization are all
idempotent, and deduplicating an already-deduplicated list removes
nothing. -/
theorem claim_C8 :
    (∀ n : Int, coerce_company_id (intToStr n) = Except.ok (some n)) ∧
    coerce_company_id [] = Except.ok none ∧
    (∀ s : Str, clean_text (clean_text s) = clean_text s) ∧
    (∀ s : Str, clean_email_str (clean_email_str s) = clean_email_str s) ∧
    emailField [] = none ∧
    (∀ s : Str, normalize_phone (normalize_phone s) = normalize_phone s) ∧
    phoneField [] = none ∧
    (∀ s : Str,
      normalize_country (normalize_country s) = normalize_country s) ∧
    (∀ l : List CleanRecord,
      dedup_records (dedup_records l) = dedup_records l) :=
  ⟨coerce_intToStr, by decide, clean_text_idem, clean_email_str_idem,
   by decide, normalize_phone_idem, by decide, normalize_country_idem,
   dedup_records_idem⟩

/-- C9: a table row whose cell count is not 6 contributes zero records and
does not disturb the parsing of the rows before or after it: the parse of
a body containing the malformed row equals the parse of the body with the
row deleted. -/
theorem claim_C9 (nl : Option (Option Str)) (pre post : List (List Str))
    (bad : List Str) (h : bad.length ≠ 6) :
    parse_company_table
        { table := some { tbody := some (pre ++ bad :: post) },
          next_link := nl } =
      parse_company_table
        { table := some { tbody := some (pre ++ post) }, next_link := nl } ∧
    rowToRecord bad = none := by
  constructor
  · simp [parse_company_table, List.filterMap_append, List.filterMap_cons,
      rowToRecord_none h]
  · exact rowToRecord_none h

theorem claim_C9_witness :
    parse_company_table
        { table := some { tbody := some ([rowA] ++ badRow5 :: [rowB]) },
          next_link := none } =
      parse_company_table
        { table := some { tbody := some ([rowA] ++ [rowB]) },
          next_link := none } ∧
    rowToRecord badRow5 = none :=
  claim_C9 none [rowA] [rowB] badRow5 (by decide)

/-- C10: a document whose table exists but has no `tbody` parses to no
records and no next reference — even when the document carries a next link
with a target — and a crawl reaching such a page terminates there with
nothing further. -/
theorem claim_C10 (tb : HtmlTable) (h : tb.tbody = none)
    (nl : Option (Option Str)) :
    parse_company_table { table := some tb, next_link := nl } = ([], none) ∧
    (∀ (site : Site) (loc : Str) (seen : List Str),
      siteLookup site loc = some { table := some tb, next_link := nl } →
      loc ∉ seen → crawlAux site (some loc) seen = []) := by
  have hp : parse_company_table { table := some tb, next_link := nl } =
      ([], none) := by
    simp [parse_company_table, h]
  refine ⟨hp, ?_⟩
  intro site loc seen hdoc hseen
  rw [crawlAux_step hdoc hseen, hp]
  show ([] : List RawRecord) ++ crawlAux site none (loc :: seen) = []
  rw [crawlAux_none]
  rfl

theorem claim_C10_witness :
    parse_company_table noBodyDoc = ([], none) ∧
    crawlAux noBodySite (some "p1".data) [] = [] := by
  have h := claim_C10 { tbody := none } rfl (some (some "p2".data))
  exact ⟨h.1, h.2 noBodySite "p1".data [] (by decide) (by simp)⟩
